import Mathlib

/-!
Verification development for the ash group-chat bot (src/main.rs).

Modelling choices of the shallow embedding:
- Rust strings become lists of characters (`Str`); `to_lowercase` is the
  per-character ASCII lowering `Char.toLower` (the inputs of interest are
  ASCII).
- The monotonic clock (`Instant`) becomes natural-number seconds; the
  truncating `Duration::as_secs` of a difference of instants becomes
  natural subtraction.
- The random source (`thread_rng`) becomes an explicit `Oracle` carrying
  one rational draw per probabilistic decision and one index for corpus
  selection; `gen_range(0f64..1f64)` draws are rationals in the unit
  interval and the probability comparison is exact.
- The rustkov `Brain` is opaque: a pool slot is modelled by the list of
  texts ingested into it, and `generate` / `stats().get_total_words` are
  opaque function parameters bundled in `Ctx` together with the static
  joke corpus (plain reference data in the source).
- Fallible effects of the event loop (sending a stanza, the sqlite
  insert) are modelled by boolean success flags; the `?` operator of
  `main`, which aborts the loop, becomes the `StepOut.fatal` outcome.
-/

abbrev Str := List Char

/-- Convert a Lean string literal into the character-list model. -/
def str (s : String) : Str := s.toList

/-- Embedding of Rust `str::starts_with` with a string pattern. -/
def begins : Str → Str → Bool
  | [], _ => true
  | _ :: _, [] => false
  | a :: ps, b :: ss => a == b && begins ps ss

/-- Embedding of Rust `str::to_lowercase` (per-character, ASCII range). -/
def lowerStr (s : Str) : Str := s.map Char.toLower

/-- Embedding of Rust `str::contains` with a string pattern (substring test). -/
def containsSub : Str → Str → Bool
  | [], pat => begins pat []
  | c :: t, pat => begins pat (c :: t) || containsSub t pat

/-- The separator characters stripped after the nick in `main`:
`body.trim_start_matches([',', ':', ' '])`. -/
def sep_chars : List Char := [',', ':', ' ']

/-- Fuel-indexed worker for `trim_start_matches` with a string pattern;
each step removes one leading copy of the pattern. -/
def trimStartAux (pat : Str) : Nat → Str → Str
  | 0, s => s
  | fuel + 1, s =>
    if pat ≠ [] ∧ begins pat s = true then trimStartAux pat fuel (s.drop pat.length)
    else s

/-- Embedding of Rust `str::trim_start_matches` with a string pattern:
all leading copies of the pattern are removed. -/
def trimStartStr (pat s : Str) : Str := trimStartAux pat s.length s

/-- Embedding of Rust `str::trim_start_matches([',', ':', ' '])`:
the leading run of separator characters is removed. -/
def trimStartChars (s : Str) : Str := s.dropWhile (fun c => sep_chars.contains c)

/-- The nick-stripping done by `main` on a directed message:
`body.trim_start_matches(nick)` then `trim_start_matches([',', ':', ' '])`. -/
def strip_directed (nick body : Str) : Str := trimStartChars (trimStartStr nick body)

/-- Embedding of `chance(pct)`: `pct > rng.gen_range(0f64..1f64)`, with the
uniform draw supplied by the oracle. -/
def chance (pct draw : ℚ) : Bool := decide (draw < pct)

/-- Embedding of `choose(choices)`: `choices.choose(&mut rng)`, a uniformly
random element (`none` on the empty slice); the oracle supplies the index. -/
def choose (choices : List Str) (r : Nat) : Option Str :=
  choices.get? (r % choices.length)

/-- The canned protocol-identity correction string `XMPP_NOT_JABBER`. -/
def XMPP_NOT_JABBER : Str :=
  str "I\x27d just like to interject for a moment. What you\x27re referring to as Jabber, is in fact, XMPP, or as I\x27ve recently taken to calling it, XMPP not Jabber. Jabber is not an internet protocol unto itself, but rather another proprietary product owned by Cisco. XMPP instead is a fully functioning free protocol made useful by standardization and extensibility.\n"

/-- The fixed repository URL string returned for `repo` and `code`. -/
def REPO_URL : Str := str "https://github.com/moparisthebest/ash"

/-- Decimal rendering of a natural number, for the `format!` embedding. -/
def natStr (n : Nat) : Str := (Nat.repr n).toList

/-- Match substring of the first ambient category. -/
def jabber_pat : Str := str "jabber"

/-- Match substring of the second ambient category. -/
def dad_pat : Str := str "dad"

/-- The probability literal 0.5 of the source. -/
def half : ℚ := mkRat 1 2

/-- The probability literal 0.01 of the source. -/
def pct_random : ℚ := mkRat 1 100

/-- Explicit randomness: one independent uniform draw per probabilistic
decision of a single message-handling step, plus the corpus index. -/
structure Oracle where
  draw_jabber : ℚ
  draw_dad : ℚ
  draw_random : ℚ
  draw_joke : ℚ
  joke_idx : Nat

/-- Opaque collaborators: the generator (`Brain::generate` as a function of
the ingested corpus and the seed text), the vocabulary size
(`stats().get_total_words()`), and the static joke corpus `DAD_JOKES`
(plain reference data). -/
structure Ctx where
  gen : List Str → Str → Option Str
  total_words : List Str → Nat
  jokes : List Str

/-- The per-room session record (struct `Room`), without the join-only
`jid` field; cooldown instants are seconds. -/
structure Room where
  nick : Str
  chain_indices : List Nat
  last_sent_jabber : Nat
  last_sent_dad : Nat
  last_sent_random : Nat
deriving DecidableEq

/-- Embedding of `Room::directed_message`: the body (already nick-stripped)
is lowercased and matched against the command table; the wildcard arm feeds
the original (non-lowercased) body to the generator. -/
def directed_message (orig_body : Str) (brain : List Str) (ctx : Ctx) (orc : Oracle) :
    Option Str :=
  let body := lowerStr orig_body
  if body = str "jabber" then some XMPP_NOT_JABBER
  else if body = str "dad" then choose ctx.jokes orc.joke_idx
  else if body = str "repo" ∨ body = str "code" then some REPO_URL
  else if body = str "words" then
    some (str "I know " ++ natStr (ctx.total_words brain) ++ str " words!")
  else ctx.gen brain orig_body

/-- Embedding of `should_send`: the cooldown timestamp is returned updated
to `now` exactly when the three-way condition holds. -/
def should_send (body : Str) (last_sent : Nat) (pattern : Str) (min_seconds : Nat)
    (pct : ℚ) (now : Nat) (draw : ℚ) : Bool × Nat :=
  if decide (min_seconds ≤ now - last_sent)
      && (pattern.isEmpty || containsSub body pattern)
      && chance pct draw
  then (true, now) else (false, last_sent)

/-- Embedding of `Room::non_directed_message`: the three ambient trigger
categories in priority order, each with its own cooldown field. -/
def non_directed_message (room : Room) (orig_body : Str) (brain : List Str)
    (ctx : Ctx) (orc : Oracle) (now : Nat) : Option Str × Room :=
  let body := lowerStr orig_body
  let r1 := should_send body room.last_sent_jabber jabber_pat 120 half now orc.draw_jabber
  if r1.1 then (some XMPP_NOT_JABBER, { room with last_sent_jabber := r1.2 })
  else
    let r2 := should_send body room.last_sent_dad dad_pat 300 half now orc.draw_dad
    if r2.1 then (choose ctx.jokes orc.joke_idx, { room with last_sent_dad := r2.2 })
    else
      let r3 := should_send body room.last_sent_random [] 300 pct_random now orc.draw_random
      if r3.1 then
        ((if chance half orc.draw_joke then choose ctx.jokes orc.joke_idx
          else ctx.gen brain orig_body),
         { room with last_sent_random := r3.2 })
      else (none, room)

/-- The firing condition of one ambient trigger category, as stated in the
specification: the cooldown interval has elapsed, the match substring is
empty or a substring of the (lowercased) body, and the uniform draw is
below the fire probability. -/
def fires (body pattern : Str) (last_sent min_seconds : Nat) (pct draw : ℚ)
    (now : Nat) : Prop :=
  min_seconds ≤ now - last_sent
    ∧ (pattern = [] ∨ containsSub body pattern = true)
    ∧ draw < pct

instance (body pattern : Str) (last_sent min_seconds : Nat) (pct draw : ℚ)
    (now : Nat) : Decidable (fires body pattern last_sent min_seconds pct draw now) := by
  unfold fires; infer_instance

/-- One `[[rooms]]` entry of the configuration file, with the room address
already split by the (external) JID parser. -/
structure RoomConfig where
  node : Str
  domain : Str
  chain_indices : Option (List Nat)
  nick : Option Str
deriving DecidableEq

/-- The configuration surface used by registry construction: the local part
of the account JID, the optional bot-wide nick, and the room list. -/
structure Config where
  jid_node : Option Str
  nick : Option Str
  rooms : List RoomConfig
deriving DecidableEq

/-- Effective nick resolution: room-specific nick, else bot-wide nick, else
the account local part, else the fixed default. -/
def resolve_nick (cfg : Config) (rc : RoomConfig) : Str :=
  (rc.nick <|> cfg.nick <|> cfg.jid_node).getD (str "ash")

/-- Chain-index computation of registry construction: the configured list
(defaulting to `[0]`), with `0` pushed at the end when absent. -/
def mk_chain_indices (ci : Option (List Nat)) : List Nat :=
  let l := ci.getD [0]
  if 0 ∈ l then l else l ++ [0]

/-- Maximum of a list of naturals (`iter().max()` over a list that always
contains `0`, so the `0` base is exact). -/
def list_max (l : List Nat) : Nat := l.foldr max 0

/-- The far-past initial cooldown instant (`Instant::now() - 99999s`),
placed at the epoch of the seconds model. -/
def long_ago : Nat := 0

/-- HashMap insert on the association-list model of the room registry:
replaces the entry of an existing key. -/
def insertRoom (rooms : List ((Str × Str) × Room)) (k : Str × Str) (r : Room) :
    List ((Str × Str) × Room) :=
  match rooms with
  | [] => [(k, r)]
  | (k', r') :: t => if k' = k then (k, r) :: t else (k', r') :: insertRoom t k r

/-- HashMap lookup on the association-list model. -/
def lookupRoom (rooms : List ((Str × Str) × Room)) (k : Str × Str) : Option Room :=
  match rooms with
  | [] => none
  | (k', r') :: t => if k' = k then some r' else lookupRoom t k

/-- One iteration of the registry-construction loop of `main`: build the
room record and fold the maximum chain index into the accumulator. -/
def build_step (cfg : Config) (acc : List ((Str × Str) × Room) × Nat)
    (rc : RoomConfig) : List ((Str × Str) × Room) × Nat :=
  let nick := resolve_nick cfg rc
  let ci := mk_chain_indices rc.chain_indices
  let mx := list_max ci
  (insertRoom acc.1 (rc.node, rc.domain) ⟨nick, ci, long_ago, long_ago, long_ago⟩,
   if acc.2 < mx then mx else acc.2)

/-- Registry construction: the room map keyed by (local part, domain)
together with the final `max_idx` accumulator. -/
def build_rooms (cfg : Config) : List ((Str × Str) × Room) × Nat :=
  cfg.rooms.foldl (build_step cfg) ([], 0)

/-- Size of the generator pool: `vec![Brain::new(); max_idx + 1]`. -/
def pool_size (cfg : Config) : Nat := (build_rooms cfg).2 + 1

/-- One row of the sqlite `msg` table. -/
structure PersistedMsg where
  node : Str
  domain : Str
  nick : Str
  msg : Str
deriving DecidableEq

/-- A group-chat reply handed to the protocol client, addressed to the bare
room address. -/
structure Sent where
  node : Str
  domain : Str
  body : Str
deriving DecidableEq

/-- An inbound chat-message event carrying a full sender JID and a body
(the only events that reach the handling code of the loop). -/
structure InMsg where
  node : Str
  domain : Str
  resource : Str
  body : Str
  is_error : Bool
deriving DecidableEq

/-- Process state threaded through the event loop: room registry, generator
pool (each slot modelled by its ingested texts), and the persisted log. -/
structure BotState where
  rooms : List ((Str × Str) × Room)
  pool : Nat → List Str
  log : List PersistedMsg

/-- Outcome of one loop iteration: `ok` continues the loop; `fatal` models
the `?` operator propagating a send or insert error out of `main`. -/
inductive StepOut where
  | ok (st : BotState) (sent : Option Sent)
  | fatal (st : BotState) (sent : Option Sent)

/-- Process state at the end of the step (at the abort point for `fatal`). -/
def StepOut.state : StepOut → BotState
  | .ok st _ => st
  | .fatal st _ => st

/-- The reply that was actually handed to the protocol client, if any. -/
def StepOut.sent : StepOut → Option Sent
  | .ok _ s => s
  | .fatal _ s => s

/-- Whether the step aborted the event loop. -/
def StepOut.isFatal : StepOut → Bool
  | .ok _ _ => false
  | .fatal _ _ => true

/-- Occurrence count of an index in a chain-index list. -/
def countN : List Nat → Nat → Nat
  | [], _ => 0
  | i :: t, j => (if i = j then 1 else 0) + countN t j

/-- Ingest a body into every listed pool slot, once per occurrence
(the `for x in &room.chain_indices { brain[*x].ingest(body) }` loop). -/
def ingestAll (pool : Nat → List Str) (idxs : List Nat) (msg : Str) :
    Nat → List Str :=
  match idxs with
  | [] => pool
  | i :: t => ingestAll (fun j => if j = i then pool j ++ [msg] else pool j) t msg

/-- The classification and reply computation of `main` for an accepted
message: directed iff the raw body starts with the nick, in which case the
stripped body goes to `directed_message`; otherwise `non_directed_message`.
Returns the candidate reply and the (possibly cooldown-updated) room. -/
def compute_response (ctx : Ctx) (room : Room) (brain : List Str) (body : Str)
    (orc : Oracle) (now : Nat) : Option Str × Room :=
  if begins room.nick body then
    (directed_message (strip_directed room.nick body) brain ctx orc, room)
  else
    non_directed_message room body brain ctx orc now

/-- The tail of the loop body: the sqlite insert (fallible, `?`) followed by
ingestion into every chain index of the room. -/
def persist_ingest (st1 : BotState) (room2 : Room) (m : InMsg) (insert_ok : Bool)
    (s : Option Sent) : StepOut :=
  if insert_ok then
    .ok { st1 with
          log := st1.log ++ [⟨m.node, m.domain, m.resource, m.body⟩],
          pool := ingestAll st1.pool room2.chain_indices m.body } s
  else .fatal st1 s

/-- One full iteration of the event loop of `main` for a chat-message event:
error and unknown-room discard, self-echo suppression, classification,
reply delivery (fallible, `?`), persistence (fallible, `?`), ingestion. -/
def handle_message (ctx : Ctx) (st : BotState) (m : InMsg) (orc : Oracle)
    (now : Nat) (send_ok insert_ok : Bool) : StepOut :=
  if m.is_error then .ok st none else
  match lookupRoom st.rooms (m.node, m.domain) with
  | none => .ok st none
  | some room =>
    if m.resource = room.nick then .ok st none
    else
      let rr := compute_response ctx room (st.pool (room.chain_indices.headD 0))
                  m.body orc now
      let st1 := { st with rooms := insertRoom st.rooms (m.node, m.domain) rr.2 }
      match rr.1 with
      | some resp =>
        if send_ok then persist_ingest st1 rr.2 m insert_ok (some ⟨m.node, m.domain, resp⟩)
        else .fatal st1 none
      | none => persist_ingest st1 rr.2 m insert_ok none

/-- One record of history replay: ingest into every chain index of the
resolved room, or into slot 0 only when the room is unknown. -/
def replay_row (rooms : List ((Str × Str) × Room)) (brain : Nat → List Str)
    (node domain msg : Str) : Nat → List Str :=
  match lookupRoom rooms (node, domain) with
  | some room => ingestAll brain room.chain_indices msg
  | none => fun j => if j = 0 then brain j ++ [msg] else brain j

/-- Directed classification following the words of the specification (for
comparison with the code): the body, after case-folding, begins with the
display nick immediately followed by one of the separators or by nothing. -/
def spec_directed (nick body : Str) : Bool :=
  [str ",", str ":", str " ", ([] : Str)].any
    (fun sep => begins (nick ++ sep) (lowerStr body))

/-- Whitespace trimming at both ends following the words of the
specification (for comparison with the code, which trims only the leading
separators); whitespace is modelled as the space character. -/
def spec_trim (s : Str) : Str :=
  ((s.dropWhile (fun c => c == ' ')).reverse.dropWhile (fun c => c == ' ')).reverse

/-- A concrete room bound to chain index 0 with nick `ash`. -/
def room0 : Room := ⟨str "ash", [0], 0, 0, 0⟩

/-- A concrete collaborator context: a generator that never produces
output, an empty vocabulary, a one-joke corpus. -/
def ctx0 : Ctx := ⟨fun _ _ => none, fun _ => 0, [str "haha"]⟩

/-- An oracle whose draws are all 0 (every probability gate passes). -/
def orc0 : Oracle := ⟨0, 0, 0, 0, 0⟩

/-- An oracle whose draws are all 9/10 (every probability gate fails). -/
def orc9 : Oracle := ⟨mkRat 9 10, mkRat 9 10, mkRat 9 10, mkRat 9 10, 0⟩

/-- An oracle whose dad-category draw passes and whose other draws fail. -/
def orcC3 : Oracle := ⟨mkRat 9 10, 0, mkRat 9 10, 0, 0⟩

/-- A concrete one-room process state with empty pool and empty log. -/
def st0 : BotState := ⟨[((str "chat", str "example"), room0)], fun _ => [], []⟩

/-- A directed inbound message (`ash: repo`) from a participant. -/
def m1 : InMsg := ⟨str "chat", str "example", str "alice", str "ash: repo", false⟩

/-- An inbound message whose body mentions the nick only in folded case. -/
def m2 : InMsg := ⟨str "chat", str "example", str "alice", str "Ash: repo", false⟩

/-- A self-echo: the sender resource equals the room nick. -/
def mEcho : InMsg := ⟨str "chat", str "example", str "ash", str "hello", false⟩

/-- A configuration whose single room lists chain index 1 twice. -/
def cfgDup : Config :=
  ⟨some (str "bot"), none, [⟨str "room", str "ex", some [1, 1], none⟩]⟩

/-! Helper lemmas about the string primitives. -/

theorem begins_iff (pat s : Str) : begins pat s = true ↔ ∃ t, s = pat ++ t := by
  induction pat generalizing s with
  | nil => simp [begins]
  | cons a ps ih =>
    cases s with
    | nil => simp [begins]
    | cons b ss =>
      simp only [begins, Bool.and_eq_true, beq_iff_eq, ih, List.cons_append]
      constructor
      · rintro ⟨rfl, t, rfl⟩; exact ⟨t, rfl⟩
      · rintro ⟨t, ht⟩
        injection ht with h1 h2
        exact ⟨h1.symm, t, h2⟩

theorem begins_append (pat t : Str) : begins pat (pat ++ t) = true :=
  (begins_iff pat (pat ++ t)).mpr ⟨t, rfl⟩

theorem begins_nil_iff (pat : Str) : begins pat [] = true ↔ pat = [] := by
  cases pat <;> simp [begins]

theorem containsSub_iff (s pat : Str) :
    containsSub s pat = true ↔ ∃ a b, s = a ++ (pat ++ b) := by
  induction s with
  | nil =>
    simp only [containsSub, begins_nil_iff]
    constructor
    · rintro rfl; exact ⟨[], [], rfl⟩
    · rintro ⟨a, b, hab⟩
      rcases List.append_eq_nil.mp hab.symm with ⟨rfl, h2⟩
      rcases List.append_eq_nil.mp h2 with ⟨rfl, rfl⟩
      rfl
  | cons c t ih =>
    simp only [containsSub, Bool.or_eq_true, begins_iff, ih]
    constructor
    · rintro (⟨u, hu⟩ | ⟨a, b, hab⟩)
      · exact ⟨[], u, by simpa using hu⟩
      · exact ⟨c :: a, b, by simp [hab]⟩
    · rintro ⟨a, b, hab⟩
      cases a with
      | nil => exact Or.inl ⟨b, by simpa using hab⟩
      | cons x a' =>
        rw [List.cons_append] at hab
        injection hab with h1 h2
        exact Or.inr ⟨a', b, h2⟩

theorem trimStartAux_congr (pat : Str) :
    ∀ f1 f2 s, s.length ≤ f1 → s.length ≤ f2 →
      trimStartAux pat f1 s = trimStartAux pat f2 s := by
  intro f1
  induction f1 with
  | zero =>
    intro f2 s h1 _
    have hs : s = [] := List.eq_nil_of_length_eq_zero (Nat.le_zero.mp h1)
    subst hs
    cases f2 with
    | zero => rfl
    | succ g =>
      have hneg : ¬ (pat ≠ [] ∧ begins pat ([] : Str) = true) := by
        rintro ⟨hp, hb⟩
        exact hp ((begins_nil_iff pat).mp hb)
      simp [trimStartAux, hneg]
  | succ f ihf =>
    intro f2 s h1 h2
    cases f2 with
    | zero =>
      have hs : s = [] := List.eq_nil_of_length_eq_zero (Nat.le_zero.mp h2)
      subst hs
      have hneg : ¬ (pat ≠ [] ∧ begins pat ([] : Str) = true) := by
        rintro ⟨hp, hb⟩
        exact hp ((begins_nil_iff pat).mp hb)
      simp [trimStartAux, hneg]
    | succ g =>
      by_cases hc : pat ≠ [] ∧ begins pat s = true
      · have hlen : (s.drop pat.length).length ≤ f ∧ (s.drop pat.length).length ≤ g := by
          obtain ⟨hp, hb⟩ := hc
          obtain ⟨u, rfl⟩ := (begins_iff pat s).mp hb
          have hp1 : 1 ≤ pat.length := by
            cases pat with
            | nil => exact absurd rfl hp
            | cons _ _ => simp
          simp only [List.length_append] at h1 h2
          simp only [List.drop_left]
          omega
        simp only [trimStartAux, if_pos hc]
        exact ihf g (s.drop pat.length) hlen.1 hlen.2
      · simp [trimStartAux, hc]

theorem trimStartStr_cons_step (pat t : Str) (h : pat ≠ []) :
    trimStartStr pat (pat ++ t) = trimStartStr pat t := by
  unfold trimStartStr
  obtain ⟨c, cs, rfl⟩ := List.exists_cons_of_ne_nil h
  have hlen : ((c :: cs) ++ t).length = (cs.length + t.length) + 1 := by
    simp only [List.length_append, List.length_cons]; omega
  rw [hlen]
  have hcond : (c :: cs) ≠ [] ∧ begins (c :: cs) ((c :: cs) ++ t) = true :=
    ⟨by simp, begins_append _ _⟩
  simp only [trimStartAux, if_pos hcond]
  rw [List.drop_left]
  exact trimStartAux_congr _ _ _ _ (by omega) (le_refl _)

theorem trimStartStr_of_not (pat s : Str)
    (h : ¬ (pat ≠ [] ∧ begins pat s = true)) : trimStartStr pat s = s := by
  unfold trimStartStr
  cases s with
  | nil => cases pat <;> rfl
  | cons c cs =>
    rw [show (c :: cs).length = cs.length + 1 from rfl]
    simp [trimStartAux, h]

theorem trimStartStr_replicate (pat r : Str) (h : pat ≠ [])
    (hr : begins pat r = false) :
    ∀ n, trimStartStr pat ((List.replicate n pat).flatten ++ r) = r := by
  intro n
  induction n with
  | zero =>
    simp only [List.replicate_zero, List.flatten_nil, List.nil_append]
    exact trimStartStr_of_not _ _ (by simp [hr])
  | succ n ih =>
    rw [List.replicate_succ, List.flatten_cons, List.append_assoc,
      trimStartStr_cons_step _ _ h, ih]

theorem trimStartStr_decomp (pat : Str) (h : pat ≠ []) (s : Str) :
    ∃ n r, s = (List.replicate n pat).flatten ++ r ∧ begins pat r = false ∧
      trimStartStr pat s = r := by
  by_cases hb : begins pat s = true
  · obtain ⟨t, rfl⟩ := (begins_iff pat s).mp hb
    obtain ⟨n, r, h1, h2, h3⟩ := trimStartStr_decomp pat h t
    refine ⟨n + 1, r, ?_, h2, ?_⟩
    · rw [List.replicate_succ, List.flatten_cons, List.append_assoc, ← h1]
    · rw [trimStartStr_cons_step _ _ h, h3]
  · refine ⟨0, s, by simp, ?_, trimStartStr_of_not _ _ (by tauto)⟩
    cases hbb : begins pat s with
    | false => rfl
    | true => exact absurd hbb hb
termination_by s.length
decreasing_by
  subst_vars
  cases pat with
  | nil => exact absurd rfl h
  | cons c cs => simp only [List.length_append, List.length_cons]; omega

/-! Helper lemmas about the trigger gate, the corpus chooser, ingestion and
registry construction. -/

theorem should_send_of_fires {body pattern : Str} {last_sent min_seconds : Nat}
    {pct draw : ℚ} {now : Nat}
    (h : fires body pattern last_sent min_seconds pct draw now) :
    should_send body last_sent pattern min_seconds pct now draw = (true, now) := by
  obtain ⟨h1, h2, h3⟩ := h
  have hp : (pattern.isEmpty || containsSub body pattern) = true := by
    rcases h2 with h2 | h2
    · simp [h2]
    · simp [h2]
  simp [should_send, h1, hp, chance, h3]

theorem should_send_of_not_fires {body pattern : Str} {last_sent min_seconds : Nat}
    {pct draw : ℚ} {now : Nat}
    (h : ¬ fires body pattern last_sent min_seconds pct draw now) :
    should_send body last_sent pattern min_seconds pct now draw = (false, last_sent) := by
  by_cases h1 : min_seconds ≤ now - last_sent
  · by_cases h2 : pattern = [] ∨ containsSub body pattern = true
    · by_cases h3 : draw < pct
      · exact absurd ⟨h1, h2, h3⟩ h
      · have hc : chance pct draw = false := by simp [chance, h3]
        simp [should_send, hc]
    · have hp : (pattern.isEmpty || containsSub body pattern) = false := by
        rw [not_or] at h2
        obtain ⟨h2a, h2b⟩ := h2
        have he : pattern.isEmpty = false := by
          cases pattern with
          | nil => exact absurd rfl h2a
          | cons _ _ => rfl
        have hcs : containsSub body pattern = false := by
          cases hx : containsSub body pattern with
          | false => rfl
          | true => exact absurd hx h2b
        simp [he, hcs]
      simp [should_send, hp]
  · have hd : decide (min_seconds ≤ now - last_sent) = false := by
      simp [h1]
    simp [should_send, hd]

theorem choose_mem {l : List Str} {r : Nat} {j : Str} (h : choose l r = some j) :
    j ∈ l := by
  unfold choose at h
  exact List.get?_mem h

theorem choose_isSome {l : List Str} (hl : l ≠ []) (r : Nat) :
    ∃ j, choose l r = some j ∧ j ∈ l := by
  have hlen : 0 < l.length := List.length_pos.mpr hl
  have hr : r % l.length < l.length := Nat.mod_lt _ hlen
  refine ⟨l.get ⟨r % l.length, hr⟩, ?_, List.get_mem _ _ _⟩
  unfold choose
  exact List.get?_eq_get hr

theorem countN_pos_of_mem {l : List Nat} {i : Nat} (h : i ∈ l) : 0 < countN l i := by
  induction l with
  | nil => simp at h
  | cons a t ih =>
    rcases List.mem_cons.mp h with rfl | h2
    · simp [countN]
    · have := ih h2
      simp only [countN]
      omega

theorem countN_eq_zero_of_not_mem {l : List Nat} {i : Nat} (h : i ∉ l) :
    countN l i = 0 := by
  induction l with
  | nil => rfl
  | cons a t ih =>
    have ha : ¬ a = i := fun hh => h (hh ▸ List.mem_cons_self a t)
    have ht : i ∉ t := fun hh => h (List.mem_cons_of_mem a hh)
    simp [countN, ha, ih ht]

theorem ingestAll_apply (msg : Str) : ∀ (idxs : List Nat) (pool : Nat → List Str)
    (j : Nat), ingestAll pool idxs msg j = pool j ++ List.replicate (countN idxs j) msg := by
  intro idxs
  induction idxs with
  | nil => intro pool j; simp [ingestAll, countN]
  | cons i t ih =>
    intro pool j
    simp only [ingestAll, countN]
    rw [ih]
    by_cases hij : i = j
    · subst hij
      simp [Nat.add_comm 1 (countN t i), List.replicate_succ, List.append_assoc]
    · have hji : ¬ j = i := fun hh => hij hh.symm
      simp [hij, hji]

theorem zero_mem_mk_chain_indices (ci : Option (List Nat)) :
    0 ∈ mk_chain_indices ci := by
  unfold mk_chain_indices
  by_cases h : 0 ∈ ci.getD [0]
  · rw [if_pos h]; exact h
  · simp [h]

theorem mem_insertRoom : ∀ (m : List ((Str × Str) × Room)) (k : Str × Str) (r : Room)
    (p : (Str × Str) × Room), p ∈ insertRoom m k r → p ∈ m ∨ p = (k, r) := by
  intro m k r p
  induction m with
  | nil => intro h; simp [insertRoom] at h; exact Or.inr h
  | cons hd tl ih =>
    obtain ⟨k', r'⟩ := hd
    intro h
    simp only [insertRoom] at h
    by_cases hk : k' = k
    · rw [if_pos hk] at h
      rcases List.mem_cons.mp h with rfl | h2
      · exact Or.inr rfl
      · exact Or.inl (List.mem_cons_of_mem _ h2)
    · rw [if_neg hk] at h
      rcases List.mem_cons.mp h with rfl | h2
      · exact Or.inl (List.mem_cons_self _ _)
      · rcases ih h2 with h3 | h3
        · exact Or.inl (List.mem_cons_of_mem _ h3)
        · exact Or.inr h3

theorem build_mem (cfg : Config) : ∀ (rcs : List RoomConfig)
    (acc : List ((Str × Str) × Room) × Nat),
    (∀ p, p ∈ acc.1 → 0 ∈ p.2.chain_indices) →
    ∀ p, p ∈ (rcs.foldl (build_step cfg) acc).1 → 0 ∈ p.2.chain_indices := by
  intro rcs
  induction rcs with
  | nil => intro acc hacc p hp; exact hacc p hp
  | cons rc t ih =>
    intro acc hacc p hp
    refine ih (build_step cfg acc rc) ?_ p hp
    intro q hq
    rcases mem_insertRoom _ _ _ _ hq with h1 | h1
    · exact hacc q h1
    · subst h1
      exact zero_mem_mk_chain_indices rc.chain_indices

theorem if_lt_max (a b : Nat) : (if a < b then b else a) = max a b := by
  rcases Nat.lt_or_ge a b with h | h
  · rw [if_pos h, Nat.max_eq_right (Nat.le_of_lt h)]
  · rw [if_neg (Nat.not_lt.mpr h), Nat.max_eq_left h]

theorem foldr_max_init (a : List Nat) : ∀ c, a.foldr max c = max (a.foldr max 0) c := by
  induction a with
  | nil => intro c; simp
  | cons x t ih =>
    intro c
    simp only [List.foldr_cons]
    rw [ih c, Nat.max_assoc]

theorem list_max_append (a b : List Nat) :
    list_max (a ++ b) = max (list_max a) (list_max b) := by
  unfold list_max
  rw [List.foldr_append, foldr_max_init a (b.foldr max 0)]

theorem build_max (cfg : Config) : ∀ (rcs : List RoomConfig)
    (acc : List ((Str × Str) × Room) × Nat),
    (rcs.foldl (build_step cfg) acc).2
      = max acc.2 (list_max ((rcs.map fun rc => mk_chain_indices rc.chain_indices)).flatten) := by
  intro rcs
  induction rcs with
  | nil => intro acc; simp [list_max]
  | cons rc t ih =>
    intro acc
    simp only [List.foldl_cons, List.map_cons, List.flatten_cons]
    rw [ih (build_step cfg acc rc), list_max_append]
    have hstep : (build_step cfg acc rc).2
        = max acc.2 (list_max (mk_chain_indices rc.chain_indices)) := by
      simp only [build_step]
      exact if_lt_max _ _
    rw [hstep, Nat.max_assoc]

/-! Claim theorems. -/

/-- C7: a group-chat message whose sender resource equals the room nick
produces no reply, appends nothing to the log, ingests nothing, and changes
no cooldown timestamp: the step returns the state unchanged. -/
theorem self_echo (ctx : Ctx) (st : BotState) (m : InMsg) (orc : Oracle) (now : Nat)
    (s_ok i_ok : Bool) (room : Room)
    (he : m.is_error = false)
    (hl : lookupRoom st.rooms (m.node, m.domain) = some room)
    (hr : m.resource = room.nick) :
    handle_message ctx st m orc now s_ok i_ok = .ok st none := by
  simp [handle_message, he, hl, hr]

/-- C7 witness: a concrete self-echo is dropped with all state unchanged. -/
theorem self_echo_witness :
    handle_message ctx0 st0 mEcho orc0 1000 true true = .ok st0 none :=
  self_echo ctx0 st0 mEcho orc0 1000 true true room0 rfl rfl rfl

/-- C9: a replayed record of a registered room is ingested into every chain
index bound to that room (once per occurrence) and into no other slot; a
record of an unknown room is ingested into slot 0 only. -/
theorem replay_routing (rooms : List ((Str × Str) × Room)) (brain : Nat → List Str)
    (node domain msg : Str) :
    (∀ room, lookupRoom rooms (node, domain) = some room →
      ∀ i, replay_row rooms brain node domain msg i
          = brain i ++ List.replicate (countN room.chain_indices i) msg ∧
        (i ∈ room.chain_indices → 0 < countN room.chain_indices i) ∧
        (i ∉ room.chain_indices → replay_row rooms brain node domain msg i = brain i)) ∧
    (lookupRoom rooms (node, domain) = none →
      replay_row rooms brain node domain msg 0 = brain 0 ++ [msg] ∧
      ∀ i, i ≠ 0 → replay_row rooms brain node domain msg i = brain i) := by
  constructor
  · intro room hl i
    have hrw : replay_row rooms brain node domain msg
        = ingestAll brain room.chain_indices msg := by
      unfold replay_row; rw [hl]
    refine ⟨by rw [hrw]; exact ingestAll_apply msg _ brain i,
      fun hm => countN_pos_of_mem hm, fun hm => ?_⟩
    rw [hrw, ingestAll_apply msg _ brain i, countN_eq_zero_of_not_mem hm]
    simp
  · intro hl
    have hrw : replay_row rooms brain node domain msg
        = fun j => if j = 0 then brain j ++ [msg] else brain j := by
      unfold replay_row; rw [hl]
    refine ⟨by rw [hrw]; simp, fun i hi => by rw [hrw]; simp [hi]⟩

/-- C9 witness: with an empty registry a concrete record lands in slot 0
only. -/
theorem replay_routing_witness :
    replay_row [] (fun _ => ([] : List Str)) (str "x") (str "y") (str "m") 0 = [str "m"] ∧
    replay_row [] (fun _ => ([] : List Str)) (str "x") (str "y") (str "m") 1 = [] := by
  have h := (replay_routing [] (fun _ => ([] : List Str)) (str "x") (str "y") (str "m")).2 rfl
  exact ⟨h.1, h.2 1 (by decide)⟩

/-- C10: directed classification needs only that the raw body start with the
nick character sequence (any body extending the nick is directed, with no
separator required), and the stripping removes every leading repetition of
the nick and then the whole leading run of separator characters. -/
theorem directed_nick_word_and_strip (nick rest r : Str) (n : Nat) (h : nick ≠ [])
    (hr : begins nick r = false) :
    begins nick (nick ++ rest) = true ∧
    trimStartStr nick ((List.replicate n nick).flatten ++ r) = r ∧
    strip_directed nick ((List.replicate n nick).flatten ++ r)
      = r.dropWhile (fun c => sep_chars.contains c) := by
  refine ⟨begins_append _ _, trimStartStr_replicate nick r h hr n, ?_⟩
  unfold strip_directed trimStartChars
  rw [trimStartStr_replicate nick r h hr n]

/-- C10 witness: with nick `ash`, the body `ashes burn` is directed, and two
leading nick copies plus a separator run are fully stripped. -/
theorem directed_nick_word_and_strip_witness :
    begins (str "ash") (str "ash" ++ str "es burn") = true ∧
    trimStartStr (str "ash") ((List.replicate 2 (str "ash")).flatten ++ str ": ,hi")
      = str ": ,hi" ∧
    strip_directed (str "ash") ((List.replicate 2 (str "ash")).flatten ++ str ": ,hi")
      = (str ": ,hi").dropWhile (fun c => sep_chars.contains c) :=
  directed_nick_word_and_strip (str "ash") (str "es burn") (str ": ,hi") 2
    (by decide) (by decide)

/-- C5 counterexample: a configuration listing chain index 1 twice yields a
room whose chain-index list `[1, 1, 0]` is not deduplicated. -/
theorem chain_indices_dup_cex :
    (build_rooms cfgDup).1
      = [((str "room", str "ex"), ⟨str "bot", [1, 1, 0], 0, 0, 0⟩)] ∧
    ¬ ((⟨str "bot", [1, 1, 0], 0, 0, 0⟩ : Room).chain_indices).Nodup := by
  exact ⟨rfl, by decide⟩

/-- C5 amended: registry construction performs no deduplication; it appends
0 exactly when absent, so the chain-index list is duplicate-free if and only
if the configured list is. -/
theorem chain_indices_nodup_iff (ci : Option (List Nat)) :
    (mk_chain_indices ci).Nodup ↔ (ci.getD [0]).Nodup := by
  unfold mk_chain_indices
  by_cases h : 0 ∈ ci.getD [0]
  · rw [if_pos h]
  · rw [if_neg h]
    simp [List.nodup_append, h]

/-- C6: every constructed room has chain index 0; the generator pool size is
one more than the maximum chain index over all rooms; slot 0 exists. -/
theorem registry_invariants (cfg : Config) (h : cfg.rooms ≠ []) :
    (∀ k r, (k, r) ∈ (build_rooms cfg).1 → 0 ∈ r.chain_indices) ∧
    pool_size cfg
      = 1 + list_max ((cfg.rooms.map fun rc => mk_chain_indices rc.chain_indices).flatten) ∧
    0 < pool_size cfg := by
  refine ⟨?_, ?_, ?_⟩
  · intro k r hkr
    exact build_mem cfg cfg.rooms ([], 0) (by intro p hp; simp at hp) (k, r) hkr
  · unfold pool_size build_rooms
    rw [build_max cfg cfg.rooms ([], 0)]
    simp [Nat.add_comm]
  · unfold pool_size
    omega

/-- C6 witness: the invariants at a concrete nonempty configuration. -/
theorem registry_invariants_witness :
    cfgDup.rooms ≠ [] ∧ 0 < pool_size cfgDup :=
  ⟨by decide, (registry_invariants cfgDup (by decide)).2.2⟩

/-- C8: ambient categories are evaluated in fixed priority order; a category
fires exactly when its cooldown has elapsed, its match substring is empty or
a substring of the lowercased body, and the uniform draw is below its fire
probability; the first firing category alone has its timestamp set to `now`,
evaluation stops there, and when nothing fires the room is unchanged. -/
theorem ambient_trigger_priority (room : Room) (ctx : Ctx) (orc : Oracle)
    (brain : List Str) (body : Str) (now : Nat) :
    (∀ s pat, containsSub s pat = true ↔ ∃ a b, s = a ++ (pat ++ b)) ∧
    (fires (lowerStr body) jabber_pat room.last_sent_jabber 120 half orc.draw_jabber now →
      non_directed_message room body brain ctx orc now
        = (some XMPP_NOT_JABBER, { room with last_sent_jabber := now })) ∧
    (¬ fires (lowerStr body) jabber_pat room.last_sent_jabber 120 half orc.draw_jabber now →
      fires (lowerStr body) dad_pat room.last_sent_dad 300 half orc.draw_dad now →
      non_directed_message room body brain ctx orc now
        = (choose ctx.jokes orc.joke_idx, { room with last_sent_dad := now })) ∧
    (¬ fires (lowerStr body) jabber_pat room.last_sent_jabber 120 half orc.draw_jabber now →
      ¬ fires (lowerStr body) dad_pat room.last_sent_dad 300 half orc.draw_dad now →
      fires (lowerStr body) [] room.last_sent_random 300 pct_random orc.draw_random now →
      non_directed_message room body brain ctx orc now
        = ((if chance half orc.draw_joke then choose ctx.jokes orc.joke_idx
            else ctx.gen brain body),
           { room with last_sent_random := now })) ∧
    (¬ fires (lowerStr body) jabber_pat room.last_sent_jabber 120 half orc.draw_jabber now →
      ¬ fires (lowerStr body) dad_pat room.last_sent_dad 300 half orc.draw_dad now →
      ¬ fires (lowerStr body) [] room.last_sent_random 300 pct_random orc.draw_random now →
      non_directed_message room body brain ctx orc now = (none, room)) := by
  refine ⟨fun s pat => containsSub_iff s pat, ?_, ?_, ?_, ?_⟩
  · intro h1
    simp only [non_directed_message]
    rw [should_send_of_fires h1]
    simp
  · intro h1 h2
    simp only [non_directed_message]
    rw [should_send_of_not_fires h1, should_send_of_fires h2]
    simp
  · intro h1 h2 h3
    simp only [non_directed_message]
    rw [should_send_of_not_fires h1, should_send_of_not_fires h2, should_send_of_fires h3]
    simp
  · intro h1 h2 h3
    simp only [non_directed_message]
    rw [should_send_of_not_fires h1, should_send_of_not_fires h2,
      should_send_of_not_fires h3]
    simp

/-- C8 witness: a concrete body containing `jabber` with an elapsed cooldown
and a passing draw fires the first category and updates only its clock. -/
theorem ambient_trigger_priority_witness :
    non_directed_message room0 (str "i use jabber daily") [] ctx0 orc0 1000
      = (some XMPP_NOT_JABBER, { room0 with last_sent_jabber := 1000 }) :=
  (ambient_trigger_priority room0 ctx0 orc0 [] (str "i use jabber daily") 1000).2.1
    (by decide)

/-- C3 counterexample: a body without the substring `dad`, an elapsed
cooldown, and a passing draw for the second category still produce no reply
and leave the room unchanged, although the claim says every body is
eligible for the second category. -/
theorem light_humor_cex :
    orcC3.draw_dad < half ∧ 300 ≤ 1000000 - room0.last_sent_dad ∧
    non_directed_message room0 (str "hello there") [] ctx0 orcC3 1000000
      = (none, room0) := by
  refine ⟨by decide, by decide, ?_⟩
  rfl

/-- C3 amended: the second-priority category carries the match substring
`dad`: when the first category does not fire, the second fires exactly on
bodies whose lowercased text contains `dad` (given its elapsed cooldown and
a draw below one half), replying with a uniformly chosen corpus joke; a
body not containing `dad` leaves the dad cooldown unchanged. -/
theorem light_humor_requires_dad (room : Room) (ctx : Ctx) (orc : Oracle)
    (brain : List Str) (body : Str) (now : Nat)
    (h1 : ¬ fires (lowerStr body) jabber_pat room.last_sent_jabber 120 half
      orc.draw_jabber now) :
    (fires (lowerStr body) dad_pat room.last_sent_dad 300 half orc.draw_dad now →
      non_directed_message room body brain ctx orc now
        = (choose ctx.jokes orc.joke_idx, { room with last_sent_dad := now }) ∧
      ∀ j, choose ctx.jokes orc.joke_idx = some j → j ∈ ctx.jokes) ∧
    (containsSub (lowerStr body) dad_pat = false →
      (non_directed_message room body brain ctx orc now).2.last_sent_dad
        = room.last_sent_dad) := by
  constructor
  · intro h2
    refine ⟨?_, fun j hj => choose_mem hj⟩
    simp only [non_directed_message]
    rw [should_send_of_not_fires h1, should_send_of_fires h2]
    simp
  · intro hcs
    have h2 : ¬ fires (lowerStr body) dad_pat room.last_sent_dad 300 half
        orc.draw_dad now := by
      rintro ⟨-, h2b, -⟩
      rcases h2b with h2b | h2b
      · exact absurd h2b (by decide)
      · rw [hcs] at h2b
        exact absurd h2b (by decide)
    simp only [non_directed_message]
    rw [should_send_of_not_fires h1, should_send_of_not_fires h2]
    by_cases h3 : fires (lowerStr body) [] room.last_sent_random 300 pct_random
      orc.draw_random now
    · rw [should_send_of_fires h3]; simp
    · rw [should_send_of_not_fires h3]; simp

/-- C3 amended witness: a body containing `dad` fires the second category
and the reply is the chosen corpus joke. -/
theorem light_humor_requires_dad_witness :
    non_directed_message room0 (str "DAD joke time") [] ctx0 orc0 1000
      = (choose ctx0.jokes orc0.joke_idx, { room0 with last_sent_dad := 1000 }) :=
  ((light_humor_requires_dad room0 ctx0 orc0 [] (str "DAD joke time") 1000
    (by decide)).1 (by decide)).1

/-- C4 counterexample: the body `repo ` with a trailing space (reaching the
command resolver after nick-stripping) would be the repository keyword after
whitespace trimming, but the code does not trim trailing whitespace and
falls through to the generator, producing no reply instead of the URL. -/
theorem directed_trailing_space_cex :
    spec_trim (str "repo ") = str "repo" ∧
    directed_message (str "repo ") [] ctx0 orc0 = none ∧
    some REPO_URL ≠ (none : Option Str) := by
  exact ⟨rfl, rfl, by simp⟩

/-- C4 amended: directed commands are resolved on the case-folded body after
nick-stripping (which removes only leading separators; trailing whitespace
is preserved): the protocol-identity keyword gives the canned string, the
joke keyword a corpus joke, both repository spellings the fixed URL, the
vocabulary keyword the formatted word count, and any other body is passed
to the generator; the directed path reads no cooldown clock and changes no
room state, so repeated directed commands reply every time. -/
theorem directed_command_table (ctx : Ctx) (orc : Oracle) (brain : List Str)
    (body : Str) :
    (lowerStr body = str "jabber" →
      directed_message body brain ctx orc = some XMPP_NOT_JABBER) ∧
    (lowerStr body = str "dad" →
      directed_message body brain ctx orc = choose ctx.jokes orc.joke_idx ∧
      ∀ j, choose ctx.jokes orc.joke_idx = some j → j ∈ ctx.jokes) ∧
    (lowerStr body = str "repo" ∨ lowerStr body = str "code" →
      directed_message body brain ctx orc = some REPO_URL) ∧
    (lowerStr body = str "words" →
      directed_message body brain ctx orc
        = some (str "I know " ++ natStr (ctx.total_words brain) ++ str " words!")) ∧
    (lowerStr body ∉ [str "jabber", str "dad", str "repo", str "code", str "words"] →
      directed_message body brain ctx orc = ctx.gen brain body) ∧
    (∀ nick ci a b c a' b' c' now now' raw, begins nick raw = true →
      (compute_response ctx ⟨nick, ci, a, b, c⟩ brain raw orc now).1
        = (compute_response ctx ⟨nick, ci, a', b', c'⟩ brain raw orc now').1 ∧
      (compute_response ctx ⟨nick, ci, a, b, c⟩ brain raw orc now).2
        = ⟨nick, ci, a, b, c⟩) := by
  refine ⟨?_, ?_, ?_, ?_, ?_, ?_⟩
  · intro h
    simp only [directed_message]
    rw [if_pos h]
  · intro h
    have h1 : ¬ (lowerStr body = str "jabber") := by rw [h]; decide
    refine ⟨?_, fun j hj => choose_mem hj⟩
    simp only [directed_message]
    rw [if_neg h1, if_pos h]
  · intro h
    have h1 : ¬ (lowerStr body = str "jabber") := by
      rcases h with h | h <;> rw [h] <;> decide
    have h2 : ¬ (lowerStr body = str "dad") := by
      rcases h with h | h <;> rw [h] <;> decide
    simp only [directed_message]
    rw [if_neg h1, if_neg h2, if_pos h]
  · intro h
    have h1 : ¬ (lowerStr body = str "jabber") := by rw [h]; decide
    have h2 : ¬ (lowerStr body = str "dad") := by rw [h]; decide
    have h3 : ¬ (lowerStr body = str "repo" ∨ lowerStr body = str "code") := by
      rw [h]; decide
    simp only [directed_message]
    rw [if_neg h1, if_neg h2, if_neg h3, if_pos h]
  · intro h
    simp only [List.mem_cons, List.not_mem_nil, or_false, not_or] at h
    obtain ⟨h1, h2, h3, h4, h5⟩ := h
    simp only [directed_message]
    rw [if_neg h1, if_neg h2, if_neg (not_or.mpr ⟨h3, h4⟩), if_neg h5]
  · intro nick ci a b c a' b' c' now now' raw hb
    constructor <;> simp [compute_response, hb]

/-- C4 amended witness: the repository command in folded case yields the
fixed URL. -/
theorem directed_command_table_witness :
    directed_message (str "REPO") [] ctx0 orc0 = some REPO_URL :=
  (directed_command_table ctx0 orc0 [] (str "REPO")).2.2.1 (Or.inl (by decide))

/-- C2 counterexample: with nick `ash` and raw body `Ash: repo`, the
specification predicate (case-folded prefix) classifies the message as
directed, but the code checks the raw body, classifies it as ambient, and
(with failing draws) sends no reply instead of the repository URL. -/
theorem directed_casefold_cex :
    spec_directed (str "ash") (str "Ash: repo") = true ∧
    begins (str "ash") (str "Ash: repo") = false ∧
    (handle_message ctx0 st0 m2 orc9 1000000 true true).sent = none := by
  exact ⟨by decide, by decide, rfl⟩

/-- C2 amended: a message is directed exactly when the raw body (no case
folding) extends the nick, with no separator required; the stripped body is
the remainder after removing every leading nick repetition and then the
leading separator run. -/
theorem directed_raw_classification (nick body : Str) (h : nick ≠ []) :
    (begins nick body = true ↔ ∃ t, body = nick ++ t) ∧
    ∃ n r, body = (List.replicate n nick).flatten ++ r ∧ begins nick r = false ∧
      strip_directed nick body = r.dropWhile (fun c => sep_chars.contains c) := by
  refine ⟨begins_iff nick body, ?_⟩
  obtain ⟨n, r, h1, h2, h3⟩ := trimStartStr_decomp nick h body
  refine ⟨n, r, h1, h2, ?_⟩
  unfold strip_directed trimStartChars
  rw [h3]

/-- C2 amended witness: the classification and stripping characterization at
nick `ash` and body `ashash, hi`. -/
theorem directed_raw_classification_witness :
    (begins (str "ash") (str "ashash, hi") = true ↔
      ∃ t, str "ashash, hi" = str "ash" ++ t) ∧
    ∃ n r, str "ashash, hi" = (List.replicate n (str "ash")).flatten ++ r ∧
      begins (str "ash") r = false ∧
      strip_directed (str "ash") (str "ashash, hi")
        = r.dropWhile (fun c => sep_chars.contains c) :=
  directed_raw_classification (str "ash") (str "ashash, hi") (by decide)

/-- C1 counterexample: on a directed message that produces a reply, a send
failure aborts the loop iteration fatally and the message is neither
persisted to the log nor ingested into the pool, while the claim says the
failure is transient and persistence still happens. -/
theorem send_failure_cex :
    (handle_message ctx0 st0 m1 orc0 1000 false true).isFatal = true ∧
    (handle_message ctx0 st0 m1 orc0 1000 false true).state.log = [] ∧
    (handle_message ctx0 st0 m1 orc0 1000 false true).state.pool 0 = [] := by
  exact ⟨rfl, rfl, rfl⟩

/-- C1 amended: a reply-delivery failure or a log-append failure propagates
out of the event loop (the step is fatal); because sending precedes the
insert, a delivery failure leaves the message unpersisted and uningested,
and an insert failure likewise prevents ingestion. -/
theorem failure_aborts_loop (ctx : Ctx) (st : BotState) (m : InMsg) (orc : Oracle)
    (now : Nat) (room room2 : Room) (resp : Str)
    (he : m.is_error = false)
    (hl : lookupRoom st.rooms (m.node, m.domain) = some room)
    (hn : ¬ m.resource = room.nick)
    (hr : compute_response ctx room (st.pool (room.chain_indices.headD 0)) m.body orc now
        = (some resp, room2)) :
    handle_message ctx st m orc now false true
      = .fatal { st with rooms := insertRoom st.rooms (m.node, m.domain) room2 } none ∧
    ∀ s_ok, (handle_message ctx st m orc now s_ok false).isFatal = true ∧
      (handle_message ctx st m orc now s_ok false).state.log = st.log ∧
      (handle_message ctx st m orc now s_ok false).state.pool = st.pool := by
  have hstep : ∀ s_ok i_ok, handle_message ctx st m orc now s_ok i_ok
      = if s_ok then
          persist_ingest { st with rooms := insertRoom st.rooms (m.node, m.domain) room2 }
            room2 m i_ok (some ⟨m.node, m.domain, resp⟩)
        else .fatal { st with rooms := insertRoom st.rooms (m.node, m.domain) room2 } none := by
    intro s_ok i_ok
    simp only [handle_message, he, Bool.false_eq_true, if_false, hl, hn, hr]
  constructor
  · rw [hstep false true]
    rfl
  · intro s_ok
    rw [hstep s_ok false]
    cases s_ok
    · exact ⟨rfl, rfl, rfl⟩
    · simp only [if_true, persist_ingest, Bool.false_eq_true, if_false]
      exact ⟨rfl, rfl, rfl⟩

/-- C1 amended witness: the fatal outcome at a concrete directed message
whose reply delivery fails. -/
theorem failure_aborts_loop_witness :
    handle_message ctx0 st0 m1 orc0 1000 false true
      = .fatal { st0 with rooms := insertRoom st0.rooms (m1.node, m1.domain) room0 } none :=
  (failure_aborts_loop ctx0 st0 m1 orc0 1000 room0 room0 REPO_URL rfl rfl
    (by decide) rfl).1
